import Mathlib

/-!
Verification development for the kiwi-ledger expense app.

The embedded code is the data-ingestion / normalization layer
(`googleSheetsService`: `LedgerEntrySchema`, `getLedgerData`, `addLedgerEntry`)
and the derived-aggregation logic in `LedgerPage.tsx`
(`formattedAmountToNumber`, `totals`, `totalAmount`, the percentage cell).

JavaScript numbers are modelled as an extended rational type `JsNumber`
(`nan`, `posInf`, `negInf`, or a finite rational); the model idealizes
IEEE-754 rounding but keeps the NaN / infinity propagation rules and the
truthiness rules (`|| 0`, `?? 0`) that the aggregation code relies on.
The sign of zero is conflated (`-0` and `+0` are both `finite 0`), which is
unobservable for the operations modelled here.
-/

/-- A JavaScript `number`: NaN, an infinity, or a finite value
(idealized as an exact rational). -/
inductive JsNumber where
  | nan
  | posInf
  | negInf
  | finite (q : ℚ)
deriving DecidableEq, Repr

namespace JsNumber

/-- JS `+` on numbers: NaN is absorbing, opposite infinities give NaN. -/
def add : JsNumber → JsNumber → JsNumber
  | nan, _ => nan
  | _, nan => nan
  | posInf, negInf => nan
  | negInf, posInf => nan
  | posInf, _ => posInf
  | _, posInf => posInf
  | negInf, _ => negInf
  | _, negInf => negInf
  | finite a, finite b => finite (a + b)

/-- JS `*` on numbers: NaN absorbing, `±Infinity * 0 = NaN`, sign rules. -/
def mul : JsNumber → JsNumber → JsNumber
  | nan, _ => nan
  | _, nan => nan
  | posInf, posInf => posInf
  | posInf, negInf => negInf
  | negInf, posInf => negInf
  | negInf, negInf => posInf
  | posInf, finite b => if b = 0 then nan else if 0 < b then posInf else negInf
  | finite a, posInf => if a = 0 then nan else if 0 < a then posInf else negInf
  | negInf, finite b => if b = 0 then nan else if 0 < b then negInf else posInf
  | finite a, negInf => if a = 0 then nan else if 0 < a then negInf else posInf
  | finite a, finite b => finite (a * b)

/-- JS `/` on numbers: `0/0 = NaN`, `x/0 = ±Infinity` for `x ≠ 0`,
`finite/±Infinity = 0`, `±Infinity/±Infinity = NaN`
(`-0` divisors are conflated with `+0`). -/
def div : JsNumber → JsNumber → JsNumber
  | nan, _ => nan
  | _, nan => nan
  | posInf, posInf => nan
  | posInf, negInf => nan
  | negInf, posInf => nan
  | negInf, negInf => nan
  | posInf, finite b => if 0 ≤ b then posInf else negInf
  | negInf, finite b => if 0 ≤ b then negInf else posInf
  | finite _, posInf => finite 0
  | finite _, negInf => finite 0
  | finite a, finite b =>
    if b = 0 then (if a = 0 then nan else if 0 < a then posInf else negInf)
    else finite (a / b)

/-- The numeric value displayed by `x.toFixed(0)`: round to the nearest
integer, ties towards the larger integer (the ECMA-262 `toFixed` rule:
among the two closest integers pick the larger); NaN and the infinities
display as themselves. -/
def toFixed0 : JsNumber → JsNumber
  | finite q => finite ((⌊q + 1/2⌋ : ℤ) : ℚ)
  | x => x

end JsNumber

/-- JS `x || y` restricted to numbers: falls back to `y` exactly when `x`
is falsy, i.e. NaN or (either) zero. -/
def jsOr (x y : JsNumber) : JsNumber :=
  match x with
  | JsNumber.nan => y
  | JsNumber.finite a => if a = 0 then y else JsNumber.finite a
  | other => other

/-- JS `x ?? y` restricted to numbers: a `number` is never `null` or
`undefined` (NaN included), so the fallback is never taken. -/
def jsNullish (x _y : JsNumber) : JsNumber := x

/-- JS `s || t` restricted to an optional string (`addLedgerEntry`'s
`notes || ""`): falls back when the value is `undefined` or `""`. -/
def jsOrString (x : Option String) (y : String) : String :=
  match x with
  | none => y
  | some s => if s = "" then y else s

/-- The whitespace characters skipped by `parseFloat` before the number
(the common `StrWhiteSpace` characters). -/
def jsWhitespace (c : Char) : Bool :=
  c = ' ' ∨ c = '\t' ∨ c = '\n' ∨ c = '\r' ∨ c = '\x0b' ∨ c = '\x0c' ∨
  c = ' ' ∨ c = '﻿'

/-- Value of a string of decimal digits. -/
def digitsToNat (ds : List Char) : Nat :=
  ds.foldl (fun a c => 10 * a + (c.toNat - '0'.toNat)) 0

/-- Value of an exponent suffix `e`/`E` followed by an optional sign and
digits; an exponent marker without digits contributes exponent 0
(`parseFloat` stops before an incomplete exponent). -/
def expDigitsVal (ds : List Char) : Int :=
  let d := ds.takeWhile Char.isDigit
  if d.isEmpty then 0 else (digitsToNat d : Int)

def parseExponentVal (cs : List Char) : Int :=
  match cs with
  | c :: rest =>
    if c = 'e' ∨ c = 'E' then
      match rest with
      | '+' :: ds => expDigitsVal ds
      | '-' :: ds => - expDigitsVal ds
      | ds => expDigitsVal ds
    else 0
  | [] => 0

/-- The unsigned decimal-literal prefix of `cs`, per the `parseFloat`
grammar (`digits [ '.' digits ] [ exponent ]`, at least one digit overall);
`none` when no such prefix exists. -/
def parseFloatCore (cs : List Char) : Option ℚ :=
  let ip := cs.takeWhile Char.isDigit
  let rest1 := cs.dropWhile Char.isDigit
  let fp :=
    match rest1 with
    | '.' :: t => t.takeWhile Char.isDigit
    | _ => []
  let rest2 :=
    match rest1 with
    | '.' :: t => t.dropWhile Char.isDigit
    | _ => rest1
  if ip.isEmpty ∧ fp.isEmpty then none
  else
    let e := parseExponentVal rest2
    let base : ℚ := (digitsToNat ip : ℚ) + (digitsToNat fp : ℚ) / ((10 : ℚ) ^ fp.length)
    some (if 0 ≤ e then base * (10 : ℚ) ^ e.toNat else base / (10 : ℚ) ^ (-e).toNat)

/-- Whether the optional sign is a minus. -/
def isNegSign : List Char → Bool
  | '-' :: _ => true
  | _ => false

/-- Drop the optional leading sign. -/
def dropSign : List Char → List Char
  | '-' :: t => t
  | '+' :: t => t
  | t => t

/-- JS `parseFloat` on a character list: skip whitespace, optional sign,
`Infinity` literal or longest decimal-literal prefix; NaN when no numeric
prefix exists. -/
def jsParseFloatChars (cs : List Char) : JsNumber :=
  let cs1 := cs.dropWhile jsWhitespace
  let cs2 := dropSign cs1
  if ("Infinity".data).isPrefixOf cs2 then
    (if isNegSign cs1 then JsNumber.negInf else JsNumber.posInf)
  else
    match parseFloatCore cs2 with
    | none => JsNumber.nan
    | some q => JsNumber.finite (if isNegSign cs1 then -q else q)

/-- `amount.replace(/[$,]/g, "")`: remove every `$` and `,`. -/
def stripAmount (s : String) : List Char :=
  s.data.filter (fun c => !(c = '$' ∨ c = ','))

/-- `LedgerPage.tsx`:
`function formattedAmountToNumber(amount: string): number {
   return parseFloat(amount.replace(/[$,]/g, "")); }` -/
def formattedAmountToNumber (amount : String) : JsNumber :=
  jsParseFloatChars (stripAmount amount)

example : formattedAmountToNumber "$10.00" = JsNumber.finite 10 := by with_unfolding_all rfl
example : formattedAmountToNumber "abc" = JsNumber.nan := by with_unfolding_all rfl
example : formattedAmountToNumber "$10.50 lunch" = JsNumber.finite (21/2) := by with_unfolding_all rfl
example : formattedAmountToNumber "$1,234.5" = JsNumber.finite (2469/2) := by with_unfolding_all rfl
example : formattedAmountToNumber "-2e2" = JsNumber.finite (-200) := by with_unfolding_all rfl
example : formattedAmountToNumber "Infinity" = JsNumber.posInf := by with_unfolding_all rfl
example : formattedAmountToNumber ".5x" = JsNumber.finite (1/2) := by with_unfolding_all rfl
example : formattedAmountToNumber "." = JsNumber.nan := by with_unfolding_all rfl

/-! ## Date parsing: `parse(dateStr, "d MMM yyyy", new Date())` (date-fns)

The format supplies all calendar-date units, so the reference date
(`new Date()`) contributes nothing to the parsed calendar date and the
time-of-day is reset; the model therefore returns a pure calendar date.
`d` matches 1–2 digits and is validated against the days of the parsed
month (leap-aware); `MMM` matches a case-insensitive English month
abbreviation; `yyyy` matches 1–4 digits and is validated positive
(date-fns's year parser rejects year 0); after the tokens, any leftover
input may contain only whitespace (date-fns's final check rejects a
remainder matching `\S`), otherwise the parse yields an invalid date. -/

structure CalDate where
  year : Nat
  month : Nat
  day : Nat
deriving DecidableEq, Repr

def monthAbbrevs : List String :=
  ["jan", "feb", "mar", "apr", "may", "jun", "jul", "aug", "sep", "oct", "nov", "dec"]

/-- Month number (1–12) of a case-insensitive 3-letter abbreviation. -/
def monthFromAbbrev (cs : List Char) : Option Nat :=
  (monthAbbrevs.findIdx? (fun m => m.data = cs.map Char.toLower)).map (· + 1)

def isLeapYear (y : Nat) : Bool :=
  y % 4 = 0 ∧ (y % 100 ≠ 0 ∨ y % 400 = 0)

def daysInMonth (y m : Nat) : Nat :=
  if m = 2 then (if isLeapYear y then 29 else 28)
  else if m = 4 ∨ m = 6 ∨ m = 9 ∨ m = 11 then 30
  else 31

/-- date-fns `parse` with format `"d MMM yyyy"`; `none` models an
invalid date (`isNaN(parsedDate.getTime())`). -/
def parseDMMMyyyy (s : String) : Option CalDate :=
  let cs := s.data
  let dds := cs.takeWhile Char.isDigit
  let rest1 := cs.dropWhile Char.isDigit
  if dds.length = 0 ∨ 2 < dds.length then none
  else
    match rest1 with
    | ' ' :: r2 =>
      match monthFromAbbrev (r2.take 3) with
      | none => none
      | some m =>
        match r2.drop 3 with
        | ' ' :: r4 =>
          let yds := r4.takeWhile Char.isDigit
          let r5 := r4.dropWhile Char.isDigit
          if yds.length = 0 ∨ 4 < yds.length ∨ ¬r5.all jsWhitespace then none
          else
            let d := digitsToNat dds
            let y := digitsToNat yds
            if 1 ≤ y ∧ 1 ≤ d ∧ d ≤ daysInMonth y m then some ⟨y, m, d⟩ else none
        | _ => none
    | _ => none

example : parseDMMMyyyy "5 Jan 2024" = some ⟨2024, 1, 5⟩ := by rfl
example : parseDMMMyyyy "15 Dec 1999" = some ⟨1999, 12, 15⟩ := by rfl
example : parseDMMMyyyy "31 Feb 2024" = none := by rfl
example : parseDMMMyyyy "29 Feb 2024" = some ⟨2024, 2, 29⟩ := by rfl
example : parseDMMMyyyy "29 Feb 2023" = none := by rfl
example : parseDMMMyyyy "5 January 2024" = none := by rfl
example : parseDMMMyyyy "5 Jan 2024 " = some ⟨2024, 1, 5⟩ := by rfl
example : parseDMMMyyyy "5 Jan 2024 x" = none := by rfl
example : parseDMMMyyyy "5 Jan 0000" = none := by rfl
example : parseDMMMyyyy "5 Jan 0" = none := by rfl
example : parseDMMMyyyy "5 Jan 0001" = some ⟨1, 1, 5⟩ := by rfl
example : parseDMMMyyyy "" = none := by rfl

/-! ## The record normalizer (`googleSheetsService`)

`LedgerEntrySchema` is a zod object over the loosely-typed cell values
`{ Date: row[0], Amount: row[1], Who: row[2], Notes: row[3] }`:

- `Date`: `z.string().min(1).transform(parse with "d MMM yyyy")`,
- `Amount`: `z.string().min(1)`,
- `Who`: `z.string().min(1)`,
- `Notes`: `z.string().optional()`.

An absent cell (`row[i]` with `i ≥ row.length`, i.e. `undefined`) fails a
required `z.string()` with a "required" issue; an empty string fails
`min(1)` with the "cannot be empty" issue; a non-empty unparseable date
fails the transform with the custom invalid-date issue.  `safeParse`
collects one issue per failing field (in key order) and succeeds exactly
when every field passes. -/

inductive ReqField where
  | date
  | amount
  | who
deriving DecidableEq, Repr

inductive FieldIssue where
  /-- zod `invalid_type` ("Required") for an `undefined` cell. -/
  | required (f : ReqField)
  /-- `z.string().min(1)` failure ("... cannot be empty"). -/
  | emptyStr (f : ReqField)
  /-- the `Date` transform's custom issue (`Invalid date: ...`). -/
  | invalidDate (raw : String)
deriving DecidableEq, Repr

structure LedgerEntry where
  Date : CalDate
  Amount : String
  Who : String
  Notes : Option String
deriving DecidableEq, Repr

/-- The loosely-typed `entryData` object built from a raw row. -/
structure EntryData where
  Date : Option String
  Amount : Option String
  Who : Option String
  Notes : Option String
deriving DecidableEq, Repr

def mkEntryData (row : List String) : EntryData :=
  ⟨row[0]?, row[1]?, row[2]?, row[3]?⟩

/-- Validation of the `Date` field: required, non-empty, then the
format transform. -/
def checkDate (c : Option String) : Except FieldIssue CalDate :=
  match c with
  | none => Except.error (FieldIssue.required ReqField.date)
  | some s =>
    if s.length < 1 then Except.error (FieldIssue.emptyStr ReqField.date)
    else
      match parseDMMMyyyy s with
      | none => Except.error (FieldIssue.invalidDate s)
      | some d => Except.ok d

/-- Validation of a required plain-string field (`Amount`, `Who`). -/
def checkStr (f : ReqField) (c : Option String) : Except FieldIssue String :=
  match c with
  | none => Except.error (FieldIssue.required f)
  | some s => if s.length < 1 then Except.error (FieldIssue.emptyStr f) else Except.ok s

def errsOf {α : Type} : Except FieldIssue α → List FieldIssue
  | Except.error e => [e]
  | Except.ok _ => []

/-- All field issues of a row, in zod key order (Date, Amount, Who;
`Notes` is optional and never produces an issue). -/
def rowIssues (ed : EntryData) : List FieldIssue :=
  errsOf (checkDate ed.Date) ++
  errsOf (checkStr ReqField.amount ed.Amount) ++
  errsOf (checkStr ReqField.who ed.Who)

/-- `LedgerEntrySchema.safeParse(entryData)`: succeeds iff every field
passes, otherwise reports the collected field issues. -/
def parseLedgerEntry (ed : EntryData) : Except (List FieldIssue) LedgerEntry :=
  match checkDate ed.Date, checkStr ReqField.amount ed.Amount, checkStr ReqField.who ed.Who with
  | Except.ok d, Except.ok a, Except.ok w => Except.ok ⟨d, a, w, ed.Notes⟩
  | _, _, _ => Except.error (rowIssues ed)

/-- One element of `parsingErrors` in `getLedgerData`:
`{ rowIndex: index + 1, rowData: entryData, errors }`. -/
structure RowError where
  rowIndex : Nat
  rowData : EntryData
  errors : List FieldIssue
deriving DecidableEq, Repr

/-- The `dataRows.forEach((row, index) => ...)` loop of `getLedgerData`:
push parsed entries to one array and per-row errors (with 1-based
`rowIndex`) to the other. -/
def normalizeAux (i : Nat) (acc : List LedgerEntry × List RowError) :
    List (List String) → List LedgerEntry × List RowError
  | [] => acc
  | row :: rest =>
    match parseLedgerEntry (mkEntryData row) with
    | Except.ok e => normalizeAux (i + 1) (acc.1 ++ [e], acc.2) rest
    | Except.error es =>
      normalizeAux (i + 1) (acc.1, acc.2 ++ [⟨i + 1, mkEntryData row, es⟩]) rest

def normalizeRows (dataRows : List (List String)) : List LedgerEntry × List RowError :=
  normalizeAux 0 ([], []) dataRows

/-- `getLedgerData` after the sheet read: drop the header row and
normalize (the source returns the entries and logs the errors; the model
returns both). -/
def getLedgerDataModel (rows : List (List String)) :
    List LedgerEntry × List RowError :=
  if 0 < rows.length then normalizeRows (rows.drop 1) else ([], [])

/-- `addLedgerEntry`'s append payload: `[[date, amount, who, notes || ""]]`. -/
def addLedgerEntryValues (date amount who : String) (notes : Option String) :
    List (List String) :=
  [[date, amount, who, jsOrString notes ""]]

example :
    normalizeRows [["5 Jan 2024", "$10.00", "Tyler"]] =
      ([⟨⟨2024, 1, 5⟩, "$10.00", "Tyler", none⟩], []) := by rfl
example :
    normalizeRows [["", "", ""]] =
      ([], [⟨1, ⟨some "", some "", some "", none⟩,
            [FieldIssue.emptyStr ReqField.date, FieldIssue.emptyStr ReqField.amount,
             FieldIssue.emptyStr ReqField.who]⟩]) := by rfl
example :
    normalizeRows [["bad", "$1", "Tyler", "x"], ["5 Jan 2024", "$2", "Melissa"]] =
      ([⟨⟨2024, 1, 5⟩, "$2", "Melissa", none⟩],
       [⟨1, ⟨some "bad", some "$1", some "Tyler", some "x"⟩,
        [FieldIssue.invalidDate "bad"]⟩]) := by rfl

/-! ## The aggregator (`LedgerPage.tsx`)

`const people = ["Tyler", "Melissa"]` is the fixed roster.  `totals`
reduces the ledger into a record initialized with every roster name at 0
(JS object keys in insertion order, modelled as an ordered association
list); `totalAmount` reduces every entry's parsed amount with an `|| 0`
fallback; the percentage table cell shows
`((total / totalAmount) * 100).toFixed(0)`. -/

def people : List String := ["Tyler", "Melissa"]

/-- `people.reduce((acc, person) => { acc[person] = 0; return acc }, {})`. -/
def initTotals : List (String × JsNumber) :=
  people.map (fun p => (p, JsNumber.finite 0))

/-- `acc[who] = acc[who] + v` for a key `who` already present: update
that key's value in place. -/
def setAdd (acc : List (String × JsNumber)) (who : String) (v : JsNumber) :
    List (String × JsNumber) :=
  acc.map (fun kv => if kv.1 = who then (kv.1, kv.2.add v) else kv)

/-- One step of the `totals` reduce:
`if (entry.Who && people.includes(entry.Who))
   acc[entry.Who] = acc[entry.Who] + (formattedAmountToNumber(entry.Amount) ?? 0)`. -/
def totalsStep (acc : List (String × JsNumber)) (entry : LedgerEntry) :
    List (String × JsNumber) :=
  if (entry.Who != "") && people.contains entry.Who then
    setAdd acc entry.Who (jsNullish (formattedAmountToNumber entry.Amount) (JsNumber.finite 0))
  else acc

/-- `const totals = ledgerData.reduce(..., people.reduce(..., {}))`. -/
def totalsModel (entries : List LedgerEntry) : List (String × JsNumber) :=
  entries.foldl totalsStep initTotals

/-- One step of the `totalAmount` reduce:
`acc + (formattedAmountToNumber(entry.Amount) || 0)`. -/
def grandStep (acc : JsNumber) (entry : LedgerEntry) : JsNumber :=
  acc.add (jsOr (formattedAmountToNumber entry.Amount) (JsNumber.finite 0))

/-- `const totalAmount = ledgerData.reduce(..., 0)`. -/
def totalAmountModel (entries : List LedgerEntry) : JsNumber :=
  entries.foldl grandStep (JsNumber.finite 0)

/-- The per-person percentage cell:
`((total / totalAmount) * 100).toFixed(0)` (as its numeric value). -/
def percentage (total grandTotal : JsNumber) : JsNumber :=
  ((total.div grandTotal).mul (JsNumber.finite 100)).toFixed0

/-- Modelled from the spec: the provided source files contain no
`splitShare` implementation (spec §4.2 Contract D only); per the spec's
words, the numeric value is the best-effort parse of `amount` multiplied
by `fraction`, with no rounding applied at this layer. -/
def splitShare (amount : String) (fraction : JsNumber) : JsNumber :=
  (formattedAmountToNumber amount).mul fraction

def dDate : CalDate := ⟨2024, 1, 5⟩

example :
    totalsModel [⟨dDate, "$10.00", "Tyler", none⟩, ⟨dDate, "$5.00", "Melissa", none⟩,
                 ⟨dDate, "$3.00", "Unknown", none⟩] =
      [("Tyler", JsNumber.finite 10), ("Melissa", JsNumber.finite 5)] := by
  with_unfolding_all rfl
example :
    totalAmountModel [⟨dDate, "$10.00", "Tyler", none⟩, ⟨dDate, "$5.00", "Melissa", none⟩,
                      ⟨dDate, "$3.00", "Unknown", none⟩] = JsNumber.finite 18 := by
  with_unfolding_all rfl
example :
    totalsModel [⟨dDate, "abc", "Tyler", none⟩] =
      [("Tyler", JsNumber.nan), ("Melissa", JsNumber.finite 0)] := by
  with_unfolding_all rfl
example : totalAmountModel [⟨dDate, "abc", "Tyler", none⟩] = JsNumber.finite 0 := by
  with_unfolding_all rfl
example : percentage (JsNumber.finite 10) (JsNumber.finite 18) = JsNumber.finite 56 := by
  with_unfolding_all rfl
example : percentage (JsNumber.finite 0) (JsNumber.finite 0) = JsNumber.nan := by
  with_unfolding_all rfl
example : splitShare "$90.00" (JsNumber.finite (1/3)) = JsNumber.finite 30 := by
  with_unfolding_all rfl
example : splitShare "$90.00" (JsNumber.finite (2/3)) = JsNumber.finite 60 := by
  with_unfolding_all rfl

/-! ## Algebraic facts about the modelled JS addition -/

theorem jsAdd_comm (a b : JsNumber) : a.add b = b.add a := by
  cases a <;> cases b <;> simp [JsNumber.add, add_comm]

theorem jsAdd_assoc (a b c : JsNumber) : (a.add b).add c = a.add (b.add c) := by
  cases a <;> cases b <;> cases c <;> simp [JsNumber.add, add_assoc]

instance : Std.Commutative JsNumber.add := ⟨jsAdd_comm⟩

instance : Std.Associative JsNumber.add := ⟨jsAdd_assoc⟩

/-! ## Characterization of `totals` -/

/-- The parsed amount added for one matching entry
(`?? 0` on a number is the identity). -/
def entryAmount (e : LedgerEntry) : JsNumber :=
  jsNullish (formattedAmountToNumber e.Amount) (JsNumber.finite 0)

/-- Roster-keyed description of `totals`: each roster name, in roster
order, maps to the left-fold of the parsed amounts of exactly the
entries whose `Who` equals that name. -/
def totalsSpecMap (entries : List LedgerEntry) : List (String × JsNumber) :=
  people.map (fun p =>
    (p, ((entries.filter (fun e => e.Who == p)).map entryAmount).foldl
          JsNumber.add (JsNumber.finite 0)))

theorem totals_foldl_char (entries : List LedgerEntry) :
    ∀ acc : List (String × JsNumber),
      entries.foldl totalsStep acc =
        acc.map (fun kv =>
          (kv.1, ((entries.filter (fun e =>
                    ((e.Who != "") && people.contains e.Who) && (e.Who == kv.1))).map
                      entryAmount).foldl JsNumber.add kv.2)) := by
  induction entries with
  | nil =>
    intro acc
    simp
  | cons e es ih =>
    intro acc
    rw [List.foldl_cons, ih]
    unfold totalsStep
    cases hg : (e.Who != "") && people.contains e.Who with
    | false =>
      simp only [Bool.false_eq_true, if_false]
      congr 1
      funext kv
      simp only [List.filter_cons, hg, Bool.false_and, Bool.false_eq_true, if_false]
    | true =>
      simp only [if_true, setAdd, List.map_map]
      congr 1
      funext kv
      obtain ⟨k, v⟩ := kv
      simp only [Function.comp_apply, List.filter_cons, hg, Bool.true_and]
      cases hw : e.Who == k with
      | false =>
        have hkv : ¬k = e.Who := fun h => by rw [h] at hw; simp at hw
        simp only [hw, Bool.false_eq_true, if_false, if_neg hkv]
      | true =>
        have heq : e.Who = k := by simpa using hw
        subst heq
        simp only [hw, eq_self_iff_true, if_true, if_pos, List.map_cons, List.foldl_cons,
          entryAmount]

/-- C1: the claim says an amount string that does not parse to a finite
number (e.g. "abc") contributes 0 both to the per-person total of its
matched roster name and to the grand total.  On the code, the grand total
does coerce the NaN parse to 0 (`|| 0`), but the per-person reduce uses
`?? 0`, which never fires for NaN, so the matched name's total becomes
NaN instead of 0: at the single entry `{Amount: "abc", Who: "Tyler"}` the
totals map is `{Tyler: NaN, Melissa: 0}` while the grand total is 0. -/
theorem c1_malformed_amount_eval :
    totalsModel [⟨dDate, "abc", "Tyler", none⟩] =
      [("Tyler", JsNumber.nan), ("Melissa", JsNumber.finite 0)] ∧
    totalAmountModel [⟨dDate, "abc", "Tyler", none⟩] = JsNumber.finite 0 :=
  ⟨by with_unfolding_all rfl, by with_unfolding_all rfl⟩

/-- C4: `totals` returns a mapping whose key set is exactly the roster in
roster order; each roster name starts at 0 and accumulates the parsed
amount of exactly the entries whose `Who` equals that name (entries whose
`Who` matches no roster name are silently excluded); on the empty entry
list every roster name maps to 0. -/
theorem c4_totals_shape (entries : List LedgerEntry) :
    totalsModel entries = totalsSpecMap entries ∧
    (totalsModel entries).map Prod.fst = people ∧
    totalsModel [] = people.map (fun p => (p, JsNumber.finite 0)) := by
  have hT : entries.filter (fun e =>
        ((e.Who != "") && people.contains e.Who) && (e.Who == "Tyler")) =
      entries.filter (fun e => e.Who == "Tyler") := by
    refine List.filter_congr ?_
    intro e _
    cases hw : e.Who == "Tyler" with
    | false => rw [Bool.and_false]
    | true =>
      have he : e.Who = "Tyler" := by simpa using hw
      rw [he]
      decide
  have hM : entries.filter (fun e =>
        ((e.Who != "") && people.contains e.Who) && (e.Who == "Melissa")) =
      entries.filter (fun e => e.Who == "Melissa") := by
    refine List.filter_congr ?_
    intro e _
    cases hw : e.Who == "Melissa" with
    | false => rw [Bool.and_false]
    | true =>
      have he : e.Who = "Melissa" := by simpa using hw
      rw [he]
      decide
  have hmain : totalsModel entries = totalsSpecMap entries := by
    rw [totalsModel, totals_foldl_char entries initTotals]
    rw [show initTotals = [("Tyler", JsNumber.finite 0), ("Melissa", JsNumber.finite 0)] from rfl]
    simp only [List.map_cons, List.map_nil]
    rw [hT, hM]
    rfl
  refine ⟨hmain, ?_, rfl⟩
  rw [hmain]
  rfl

/-- The worked example from the spec: entries
`[{amount:"$10.00", who:"Tyler"}, {amount:"$5.00", who:"Melissa"},
  {amount:"$3.00", who:"Unknown"}]`. -/
def exampleEntries : List LedgerEntry :=
  [⟨dDate, "$10.00", "Tyler", none⟩, ⟨dDate, "$5.00", "Melissa", none⟩,
   ⟨dDate, "$3.00", "Unknown", none⟩]

/-- C5: the grand total is the sum over every entry of its parsed amount
(with the `|| 0` falsy fallback), independent of `Who` — entries whose
`who` matches no roster name still count; on the spec's example it is 18
while the totals table is `{Tyler: 10, Melissa: 5}`. -/
theorem c5_grand_total :
    (∀ entries : List LedgerEntry,
        totalAmountModel entries =
          (entries.map (fun e =>
            jsOr (formattedAmountToNumber e.Amount) (JsNumber.finite 0))).foldr
            JsNumber.add (JsNumber.finite 0)) ∧
    (∀ (entries : List LedgerEntry) (f : LedgerEntry → String),
        totalAmountModel (entries.map (fun e => { e with Who := f e })) =
          totalAmountModel entries) ∧
    totalAmountModel exampleEntries = JsNumber.finite 18 ∧
    totalsModel exampleEntries =
      [("Tyler", JsNumber.finite 10), ("Melissa", JsNumber.finite 5)] := by
  refine ⟨?_, ?_, by with_unfolding_all rfl, by with_unfolding_all rfl⟩
  · intro entries
    show List.foldl
        (fun acc e => acc.add (jsOr (formattedAmountToNumber e.Amount) (JsNumber.finite 0)))
        (JsNumber.finite 0) entries = _
    rw [← List.foldl_map
      (fun e : LedgerEntry => jsOr (formattedAmountToNumber e.Amount) (JsNumber.finite 0))
      JsNumber.add]
    exact List.foldl_eq_foldr _ _
  · intro entries f
    show List.foldl grandStep (JsNumber.finite 0) (entries.map fun e => { e with Who := f e }) =
      List.foldl grandStep (JsNumber.finite 0) entries
    rw [List.foldl_map]
    rfl

/-- C8 (spec-modelled `splitShare`): the result is the best-effort parse
of the amount multiplied by the fraction, with no rounding — exactly
linear in the fraction for a parsed `$90.00`; the spec's examples
`splitShare("$90.00", 1/3) = 30` and `splitShare("$90.00", 2/3) = 60`
hold. -/
theorem c8_splitShare :
    splitShare "$90.00" (JsNumber.finite (1/3)) = JsNumber.finite 30 ∧
    splitShare "$90.00" (JsNumber.finite (2/3)) = JsNumber.finite 60 ∧
    (∀ f : ℚ, splitShare "$90.00" (JsNumber.finite f) = JsNumber.finite (90 * f)) ∧
    (∀ (a : String) (fr : JsNumber),
        splitShare a fr = (formattedAmountToNumber a).mul fr) := by
  refine ⟨by with_unfolding_all rfl, by with_unfolding_all rfl, ?_, fun a fr => rfl⟩
  intro f
  have h90 : formattedAmountToNumber "$90.00" = JsNumber.finite 90 := by
    with_unfolding_all rfl
  rw [splitShare, h90]
  simp only [JsNumber.mul]

/-- C9: the normalizer is deterministic — it is a pure function of its
input row sequence, so two runs on structurally equal inputs produce
structurally identical entries (same order) and errors. -/
theorem c9_normalize_deterministic (rows₁ rows₂ : List (List String))
    (h : rows₁ = rows₂) :
    normalizeRows rows₁ = normalizeRows rows₂ ∧
    getLedgerDataModel rows₁ = getLedgerDataModel rows₂ := by
  subst h
  exact ⟨rfl, rfl⟩

/-- C9 witness: two runs on the same concrete sheet agree. -/
theorem c9_normalize_deterministic_witness :
    normalizeRows [["5 Jan 2024", "$10.00", "Tyler"]] =
      normalizeRows [["5 Jan 2024", "$10.00", "Tyler"]] ∧
    getLedgerDataModel [["Date", "Amount", "Who", "Notes"], ["5 Jan 2024", "$10.00", "Tyler"]] =
      getLedgerDataModel [["Date", "Amount", "Who", "Notes"], ["5 Jan 2024", "$10.00", "Tyler"]] := by
  refine ⟨(c9_normalize_deterministic _ _ rfl).1, ?_⟩
  exact (c9_normalize_deterministic
    [["Date", "Amount", "Who", "Notes"], ["5 Jan 2024", "$10.00", "Tyler"]]
    [["Date", "Amount", "Who", "Notes"], ["5 Jan 2024", "$10.00", "Tyler"]] rfl).2

/-! ## Characterization of the normalizer -/

/-- The entries produced by normalization: the successful parses, in
input order. -/
def entriesOf (dataRows : List (List String)) : List LedgerEntry :=
  dataRows.filterMap (fun row => (parseLedgerEntry (mkEntryData row)).toOption)

/-- The row errors produced by normalization starting at 0-based index
`n`: one `RowError` per failing row, carrying rowIndex `n + 1` onwards. -/
def errorsFrom (n : Nat) : List (List String) → List RowError
  | [] => []
  | row :: rest =>
    match parseLedgerEntry (mkEntryData row) with
    | Except.ok _ => errorsFrom (n + 1) rest
    | Except.error es => ⟨n + 1, mkEntryData row, es⟩ :: errorsFrom (n + 1) rest

theorem normalizeAux_eq (rows : List (List String)) :
    ∀ (i : Nat) (acc : List LedgerEntry × List RowError),
      normalizeAux i acc rows = (acc.1 ++ entriesOf rows, acc.2 ++ errorsFrom i rows) := by
  induction rows with
  | nil =>
    intro i acc
    simp [normalizeAux, entriesOf, errorsFrom]
  | cons row rest ih =>
    intro i acc
    cases hp : parseLedgerEntry (mkEntryData row) with
    | ok e =>
      have hto : (parseLedgerEntry (mkEntryData row)).toOption = some e := by rw [hp]; rfl
      simp only [normalizeAux, hp, entriesOf, List.filterMap_cons, hto, errorsFrom]
      rw [ih]
      simp [entriesOf]
      rfl
    | error es =>
      have hto : (parseLedgerEntry (mkEntryData row)).toOption = none := by rw [hp]; rfl
      simp only [normalizeAux, hp, entriesOf, List.filterMap_cons, hto, errorsFrom]
      rw [ih]
      simp [entriesOf, errorsFrom]
      rfl

theorem normalizeRows_eq (dataRows : List (List String)) :
    normalizeRows dataRows = (entriesOf dataRows, errorsFrom 0 dataRows) := by
  rw [normalizeRows, normalizeAux_eq]
  rfl

theorem errorsFrom_bounds (rows : List (List String)) :
    ∀ (n : Nat) (err : RowError), err ∈ errorsFrom n rows →
      n + 1 ≤ err.rowIndex ∧ err.rowIndex ≤ n + rows.length := by
  induction rows with
  | nil =>
    intro n err h
    simp [errorsFrom] at h
  | cons row rest ih =>
    intro n err h
    cases hp : parseLedgerEntry (mkEntryData row) with
    | ok e =>
      rw [errorsFrom, hp] at h
      have := ih (n + 1) err h
      simp only [List.length_cons]
      omega
    | error es =>
      rw [errorsFrom, hp] at h
      rcases List.mem_cons.mp h with rfl | h
      · simp
      · have := ih (n + 1) err h
        simp only [List.length_cons]
        omega

theorem errorsFrom_filter (rows : List (List String)) :
    ∀ (n i : Nat) (row : List String) (es : List FieldIssue),
      rows[i]? = some row →
      parseLedgerEntry (mkEntryData row) = Except.error es →
      (errorsFrom n rows).filter (fun err => err.rowIndex == n + i + 1) =
        [⟨n + i + 1, mkEntryData row, es⟩] := by
  induction rows with
  | nil =>
    intro n i row es hget
    simp at hget
  | cons r rest ih =>
    intro n i row es hget hperr
    cases i with
    | zero =>
      rw [List.getElem?_cons_zero] at hget
      obtain rfl : r = row := by injection hget
      rw [errorsFrom, hperr, List.filter_cons]
      rw [if_pos (show ((⟨n + 1, mkEntryData r, es⟩ : RowError).rowIndex == n + 0 + 1) = true
        by simp)]
      have htail : (errorsFrom (n + 1) rest).filter
          (fun err => err.rowIndex == n + 0 + 1) = [] := by
        rw [List.filter_eq_nil_iff]
        intro err hmem
        have hb := errorsFrom_bounds rest (n + 1) err hmem
        simp only [beq_iff_eq]
        omega
      rw [htail]
    | succ j =>
      rw [List.getElem?_cons_succ] at hget
      have harith : n + (j + 1) + 1 = (n + 1) + j + 1 := by omega
      cases hp : parseLedgerEntry (mkEntryData r) with
      | ok e =>
        rw [errorsFrom, hp]
        rw [harith]
        exact ih (n + 1) j row es hget hperr
      | error es2 =>
        rw [errorsFrom, hp, List.filter_cons]
        rw [if_neg (show ¬((⟨n + 1, mkEntryData r, es2⟩ : RowError).rowIndex
            == n + (j + 1) + 1) = true by simp)]
        rw [harith]
        exact ih (n + 1) j row es hget hperr

theorem entriesOf_eraseIdx (rows : List (List String)) :
    ∀ (i : Nat) (row : List String), rows[i]? = some row →
      (∃ es, parseLedgerEntry (mkEntryData row) = Except.error es) →
      entriesOf (rows.eraseIdx i) = entriesOf rows := by
  induction rows with
  | nil =>
    intro i row h
    simp at h
  | cons r rest ih =>
    intro i row hget herr
    cases i with
    | zero =>
      obtain ⟨es, hes⟩ := herr
      rw [List.getElem?_cons_zero] at hget
      obtain rfl : r = row := by injection hget
      have hto : (parseLedgerEntry (mkEntryData r)).toOption = none := by rw [hes]; rfl
      show entriesOf rest = entriesOf (r :: rest)
      simp only [entriesOf, List.filterMap_cons, hto]
    | succ j =>
      rw [List.getElem?_cons_succ] at hget
      have hih := ih j row hget herr
      show entriesOf (r :: rest.eraseIdx j) = entriesOf (r :: rest)
      simp only [entriesOf, List.filterMap_cons] at hih ⊢
      cases hto : (parseLedgerEntry (mkEntryData r)).toOption with
      | none => simp only [hto]; exact hih
      | some e => simp only [hto]; rw [hih]

/-! ## Field-level error accounting -/

def cellOf (ed : EntryData) : ReqField → Option String
  | ReqField.date => ed.Date
  | ReqField.amount => ed.Amount
  | ReqField.who => ed.Who

/-- The required cell for `f` is missing (`undefined`) or the empty
string. -/
def isEmptyOrMissing (ed : EntryData) (f : ReqField) : Prop :=
  cellOf ed f = none ∨ cellOf ed f = some ""

/-- Whether an issue concerns field `f` (an invalid-date issue concerns
the date field). -/
def issueAbout (f : ReqField) : FieldIssue → Bool
  | FieldIssue.required g => g == f
  | FieldIssue.emptyStr g => g == f
  | FieldIssue.invalidDate _ => ReqField.date == f

theorem filter_errsOf_checkStr_ne (f g : ReqField) (hne : (g == f) = false)
    (c : Option String) :
    (errsOf (checkStr g c)).filter (issueAbout f) = [] := by
  cases c with
  | none => simp [checkStr, errsOf, issueAbout, hne]
  | some s =>
    by_cases hs : s.length < 1 <;> simp [checkStr, errsOf, hs, issueAbout, hne]

theorem filter_errsOf_checkDate_ne (f : ReqField) (hne : (ReqField.date == f) = false)
    (c : Option String) :
    (errsOf (checkDate c)).filter (issueAbout f) = [] := by
  cases c with
  | none => simp [checkDate, errsOf, issueAbout, hne]
  | some s =>
    by_cases hs : s.length < 1
    · simp [checkDate, errsOf, hs, issueAbout, hne]
    · cases hd : parseDMMMyyyy s <;> simp [checkDate, errsOf, hs, hd, issueAbout, hne]

theorem filter_errsOf_checkStr_self (g : ReqField) (c : Option String)
    (hbad : c = none ∨ c = some "") :
    ((errsOf (checkStr g c)).filter (issueAbout g)).length = 1 := by
  rcases hbad with rfl | rfl
  · simp [checkStr, errsOf, issueAbout]
  · simp [checkStr, errsOf, issueAbout]

theorem filter_errsOf_checkDate_self (c : Option String)
    (hbad : c = none ∨ c = some "") :
    ((errsOf (checkDate c)).filter (issueAbout ReqField.date)).length = 1 := by
  rcases hbad with rfl | rfl
  · simp [checkDate, errsOf, issueAbout]
  · simp [checkDate, errsOf, issueAbout]

theorem rowIssues_count (ed : EntryData) (f : ReqField)
    (hf : isEmptyOrMissing ed f) :
    ((rowIssues ed).filter (issueAbout f)).length = 1 := by
  cases f with
  | date =>
    rw [rowIssues, List.filter_append, List.filter_append,
      filter_errsOf_checkStr_ne ReqField.date ReqField.amount rfl,
      filter_errsOf_checkStr_ne ReqField.date ReqField.who rfl]
    simpa using filter_errsOf_checkDate_self ed.Date hf
  | amount =>
    rw [rowIssues, List.filter_append, List.filter_append,
      filter_errsOf_checkDate_ne ReqField.amount rfl,
      filter_errsOf_checkStr_ne ReqField.amount ReqField.who rfl]
    simpa using filter_errsOf_checkStr_self ReqField.amount ed.Amount hf
  | who =>
    rw [rowIssues, List.filter_append, List.filter_append,
      filter_errsOf_checkDate_ne ReqField.who rfl,
      filter_errsOf_checkStr_ne ReqField.who ReqField.amount rfl]
    simpa using filter_errsOf_checkStr_self ReqField.who ed.Who hf

theorem parse_error_of_bad (ed : EntryData)
    (hbad : ∃ f, isEmptyOrMissing ed f) :
    parseLedgerEntry ed = Except.error (rowIssues ed) := by
  obtain ⟨f, hf⟩ := hbad
  unfold parseLedgerEntry
  cases hd : checkDate ed.Date <;>
    cases ha : checkStr ReqField.amount ed.Amount <;>
    cases hw : checkStr ReqField.who ed.Who <;>
    try rfl
  exfalso
  cases f with
  | date =>
    rcases hf with h | h <;> rw [show cellOf ed ReqField.date = ed.Date from rfl] at h <;>
      rw [h] at hd <;> simp [checkDate] at hd
  | amount =>
    rcases hf with h | h <;> rw [show cellOf ed ReqField.amount = ed.Amount from rfl] at h <;>
      rw [h] at ha <;> simp [checkStr] at ha
  | who =>
    rcases hf with h | h <;> rw [show cellOf ed ReqField.who = ed.Who from rfl] at h <;>
      rw [h] at hw <;> simp [checkStr] at hw

/-- C2: a row with `date`, `amount` or `who` empty or missing fails
validation (so it contributes no entry: erasing it leaves the entries
unchanged), produces exactly one `RowError` carrying its 1-based data-row
position (`rowIndex = i + 1` for 0-based `i`) and its raw data, and that
error holds exactly one field error per empty-or-missing required
field. -/
theorem c2_required_fields (dataRows : List (List String)) (i : Nat) (row : List String)
    (hget : dataRows[i]? = some row)
    (hbad : ∃ f, isEmptyOrMissing (mkEntryData row) f) :
    parseLedgerEntry (mkEntryData row) = Except.error (rowIssues (mkEntryData row)) ∧
    (normalizeRows (dataRows.eraseIdx i)).1 = (normalizeRows dataRows).1 ∧
    (normalizeRows dataRows).2.filter (fun err => err.rowIndex == i + 1) =
      [⟨i + 1, mkEntryData row, rowIssues (mkEntryData row)⟩] ∧
    ∀ f, isEmptyOrMissing (mkEntryData row) f →
      ((rowIssues (mkEntryData row)).filter (issueAbout f)).length = 1 := by
  have hperr := parse_error_of_bad _ hbad
  refine ⟨hperr, ?_, ?_, fun f hf => rowIssues_count _ f hf⟩
  · rw [normalizeRows_eq, normalizeRows_eq]
    exact entriesOf_eraseIdx dataRows i row hget ⟨_, hperr⟩
  · rw [normalizeRows_eq]
    have h := errorsFrom_filter dataRows 0 i row _ hget hperr
    simpa using h

/-- C2 witness: the single data row `["", "$5.00", "Tyler"]` (empty
date) is excluded from the entries and yields exactly one row error at
rowIndex 1 with one field error for the date. -/
theorem c2_required_fields_witness :
    parseLedgerEntry (mkEntryData ["", "$5.00", "Tyler"]) =
      Except.error (rowIssues (mkEntryData ["", "$5.00", "Tyler"])) ∧
    (normalizeRows (([["", "$5.00", "Tyler"]]).eraseIdx 0)).1 =
      (normalizeRows [["", "$5.00", "Tyler"]]).1 ∧
    (normalizeRows [["", "$5.00", "Tyler"]]).2.filter (fun err => err.rowIndex == 0 + 1) =
      [⟨0 + 1, mkEntryData ["", "$5.00", "Tyler"],
        rowIssues (mkEntryData ["", "$5.00", "Tyler"])⟩] ∧
    ∀ f, isEmptyOrMissing (mkEntryData ["", "$5.00", "Tyler"]) f →
      ((rowIssues (mkEntryData ["", "$5.00", "Tyler"])).filter (issueAbout f)).length = 1 :=
  c2_required_fields [["", "$5.00", "Tyler"]] 0 ["", "$5.00", "Tyler"] rfl
    ⟨ReqField.date, Or.inr rfl⟩

/-! ## C3 and C6: notes handling and date validation -/

theorem parse_ok_notes (ed : EntryData) (e : LedgerEntry)
    (hok : parseLedgerEntry ed = Except.ok e) : e.Notes = ed.Notes := by
  unfold parseLedgerEntry at hok
  split at hok
  · cases hok
    rfl
  · simp at hok

theorem parse_isOk_iff (ed : EntryData) :
    (parseLedgerEntry ed).isOk =
      ((checkDate ed.Date).isOk && ((checkStr ReqField.amount ed.Amount).isOk &&
        (checkStr ReqField.who ed.Who).isOk)) := by
  unfold parseLedgerEntry
  cases checkDate ed.Date <;> cases checkStr ReqField.amount ed.Amount <;>
    cases checkStr ReqField.who ed.Who <;> rfl

/-- C3 counterexample: for the row `["5 Jan 2024", "$10.00", "Tyler"]`
whose notes cell is absent, the normalizer produces an entry whose notes
value is absent (`undefined`, modelled `none`) — not the empty string as
the claim states (`none` and `some ""` differ). -/
theorem c3_notes_counterexample :
    parseLedgerEntry (mkEntryData ["5 Jan 2024", "$10.00", "Tyler"]) =
      Except.ok ⟨⟨2024, 1, 5⟩, "$10.00", "Tyler", none⟩ ∧
    ((none : Option String) == some "") = false :=
  ⟨by rfl, by rfl⟩

/-- C3 (amended): a row with an absent notes cell validates to an entry
whose notes is likewise absent (never a validation error — validity never
depends on the notes cell), and the append payload of `addLedgerEntry`
carries the empty string when notes is absent. -/
theorem c3_notes_amended :
    (∀ (ed : EntryData) (e : LedgerEntry), ed.Notes = none →
        parseLedgerEntry ed = Except.ok e → e.Notes = none) ∧
    (∀ (ed : EntryData) (n : Option String),
        (parseLedgerEntry { ed with Notes := n }).isOk = (parseLedgerEntry ed).isOk) ∧
    (∀ d a w, addLedgerEntryValues d a w none = [[d, a, w, ""]]) := by
  refine ⟨?_, ?_, fun d a w => rfl⟩
  · intro ed e hn hok
    rw [parse_ok_notes ed e hok, hn]
  · intro ed n
    rw [parse_isOk_iff, parse_isOk_iff]

/-- C3 witness: the amended statement applied at the concrete row
`["5 Jan 2024", "$10.00", "Tyler"]`. -/
theorem c3_notes_amended_witness :
    LedgerEntry.Notes ⟨⟨2024, 1, 5⟩, "$10.00", "Tyler", none⟩ = none :=
  c3_notes_amended.1 (mkEntryData ["5 Jan 2024", "$10.00", "Tyler"])
    ⟨⟨2024, 1, 5⟩, "$10.00", "Tyler", none⟩ rfl (by rfl)

/-- C6: the date field is accepted exactly when it is non-empty and
parses under the exact `"d MMM yyyy"` format; a non-empty parse failure
yields the invalid-date field error; `"5 Jan 2024"` resolves to the
calendar date 2024-01-05 (and `"31 Feb 2024"`, which does not denote a
real calendar date, is rejected, as is the year-0 string
`"5 Jan 0000"`, while a trailing-whitespace remainder as in
`"5 Jan 2024 "` is tolerated). -/
theorem c6_date_validation :
    (∀ s : String, s ≠ "" → parseDMMMyyyy s = none →
        checkDate (some s) = Except.error (FieldIssue.invalidDate s)) ∧
    (∀ (s : String) (d : CalDate), checkDate (some s) = Except.ok d →
        s ≠ "" ∧ parseDMMMyyyy s = some d) ∧
    parseDMMMyyyy "5 Jan 2024" = some ⟨2024, 1, 5⟩ ∧
    checkDate (some "31 Feb 2024") = Except.error (FieldIssue.invalidDate "31 Feb 2024") ∧
    checkDate (some "5 Jan 0000") = Except.error (FieldIssue.invalidDate "5 Jan 0000") ∧
    parseDMMMyyyy "5 Jan 2024 " = some ⟨2024, 1, 5⟩ ∧
    normalizeRows [["5 Jan 2024", "$10.00", "Tyler"]] =
      ([⟨⟨2024, 1, 5⟩, "$10.00", "Tyler", none⟩], []) := by
  refine ⟨?_, ?_, rfl, rfl, rfl, rfl, rfl⟩
  · intro s hs hp
    have hlen : ¬ s.length < 1 := by
      obtain ⟨l⟩ := s
      cases l with
      | nil => exact absurd rfl hs
      | cons c t => simp [String.length]
    simp only [checkDate, if_neg hlen]
    rw [hp]
  · intro s d h
    by_cases hs : s.length < 1
    · simp only [checkDate, if_pos hs] at h
      exact absurd h (by simp)
    · refine ⟨?_, ?_⟩
      · intro heq
        subst heq
        exact hs (by decide)
      · simp only [checkDate, if_neg hs] at h
        cases hp : parseDMMMyyyy s with
        | none => rw [hp] at h; simp at h
        | some d2 => rw [hp] at h; cases h; rfl

/-- C6 witness: the date rules applied at concrete inputs — `"abc"`
draws the invalid-date error, and an accepted `"5 Jan 2024"` is non-empty
and parses to 2024-01-05. -/
theorem c6_date_validation_witness :
    checkDate (some "abc") = Except.error (FieldIssue.invalidDate "abc") ∧
    ("5 Jan 2024" ≠ "" ∧ parseDMMMyyyy "5 Jan 2024" = some ⟨2024, 1, 5⟩) :=
  ⟨c6_date_validation.1 "abc" (by decide) rfl,
   c6_date_validation.2.1 "5 Jan 2024" ⟨2024, 1, 5⟩ (by rfl)⟩

/-! ## C10: leading numeric prefixes -/

/-- Claim-side predicate: after the stripping, whitespace and optional
sign, the string begins with a numeric prefix — an `Infinity` literal, a
digit, or a decimal point followed by a digit. -/
def startsNumeric (cs : List Char) : Bool :=
  let u := dropSign (cs.dropWhile jsWhitespace)
  ("Infinity".data).isPrefixOf u ||
  !(u.takeWhile Char.isDigit).isEmpty ||
  (match u.dropWhile Char.isDigit with
   | '.' :: t => !(t.takeWhile Char.isDigit).isEmpty
   | _ => false)

theorem parseFloatCore_eq_none_iff (cs : List Char) :
    parseFloatCore cs = none ↔
      ((cs.takeWhile Char.isDigit).isEmpty = true ∧
       (match cs.dropWhile Char.isDigit with
        | '.' :: t => t.takeWhile Char.isDigit
        | _ => ([] : List Char)).isEmpty = true) := by
  unfold parseFloatCore
  by_cases h : (cs.takeWhile Char.isDigit).isEmpty = true ∧
      (match cs.dropWhile Char.isDigit with
       | '.' :: t => t.takeWhile Char.isDigit
       | _ => ([] : List Char)).isEmpty = true
  · simp [h]
  · simp [h]

theorem parse_nan_iff (cs : List Char) :
    (jsParseFloatChars cs = JsNumber.nan) ↔ startsNumeric cs = false := by
  unfold jsParseFloatChars startsNumeric
  cases hinf : ("Infinity".data).isPrefixOf (dropSign (cs.dropWhile jsWhitespace)) with
  | true =>
    cases hneg : isNegSign (cs.dropWhile jsWhitespace) <;> simp [hinf, hneg]
  | false =>
    simp only [hinf, Bool.false_eq_true, if_false, Bool.false_or]
    cases hc : parseFloatCore (dropSign (cs.dropWhile jsWhitespace)) with
    | none =>
      rw [parseFloatCore_eq_none_iff] at hc
      obtain ⟨h1, h2⟩ := hc
      simp only [h1, Bool.not_true, Bool.false_or]
      constructor
      · intro _
        cases hdrop : (dropSign (cs.dropWhile jsWhitespace)).dropWhile Char.isDigit with
        | nil => rfl
        | cons c t =>
          rw [hdrop] at h2
          by_cases hcc : c = '.'
          · subst hcc
            simp at h2
            simp [h2]
          · simp [hcc]
      · intro _
        exact trivial
    | some q =>
      constructor
      · intro hfin
        exact absurd hfin (by simp)
      · intro hrhs
        exfalso
        have hor : (!((dropSign (cs.dropWhile jsWhitespace)).takeWhile Char.isDigit).isEmpty)
              = false ∧
            (match (dropSign (cs.dropWhile jsWhitespace)).dropWhile Char.isDigit with
             | '.' :: t => !(t.takeWhile Char.isDigit).isEmpty
             | _ => false) = false := by
          revert hrhs
          cases (!((dropSign (cs.dropWhile jsWhitespace)).takeWhile Char.isDigit).isEmpty) <;>
            simp
        obtain ⟨hA, hC⟩ := hor
        have hA2 : ((dropSign (cs.dropWhile jsWhitespace)).takeWhile Char.isDigit).isEmpty
            = true := by
          revert hA
          cases ((dropSign (cs.dropWhile jsWhitespace)).takeWhile Char.isDigit).isEmpty <;>
            simp
        have hnone : parseFloatCore (dropSign (cs.dropWhile jsWhitespace)) = none := by
          rw [parseFloatCore_eq_none_iff]
          refine ⟨hA2, ?_⟩
          cases hdrop : (dropSign (cs.dropWhile jsWhitespace)).dropWhile Char.isDigit with
          | nil => rfl
          | cons c t =>
            rw [hdrop] at hC
            by_cases hcc : c = '.'
            · subst hcc
              simp at hC ⊢
              exact hC
            · simp [hcc]
        rw [hnone] at hc
        exact Option.noConfusion hc

/-- C10: an amount whose stripped form starts with a valid numeric
prefix followed by junk (e.g. `"$10.50 lunch"`) contributes the prefix
value 10.5 — to the per-person total of its matched name and to the grand
total alike — not 0; the parse yields NaN exactly when the stripped
string has no leading numeric prefix, and only that NaN case falls back
to a 0 contribution in the grand total. -/
theorem c10_numeric_head :
    formattedAmountToNumber "$10.50 lunch" = JsNumber.finite (21/2) ∧
    totalsModel [⟨dDate, "$10.50 lunch", "Tyler", none⟩] =
      [("Tyler", JsNumber.finite (21/2)), ("Melissa", JsNumber.finite 0)] ∧
    totalAmountModel [⟨dDate, "$10.50 lunch", "Tyler", none⟩] = JsNumber.finite (21/2) ∧
    (∀ s : String, formattedAmountToNumber s = JsNumber.nan ↔
        startsNumeric (stripAmount s) = false) ∧
    (∀ s : String, formattedAmountToNumber s = JsNumber.nan →
        jsOr (formattedAmountToNumber s) (JsNumber.finite 0) = JsNumber.finite 0) := by
  refine ⟨by with_unfolding_all rfl, by with_unfolding_all rfl, by with_unfolding_all rfl,
    fun s => parse_nan_iff (stripAmount s), fun s h => by rw [h]; rfl⟩

/-- C10 witness: the fallback law applied at the prefix-free string
`"abc"` — its grand-total contribution is 0. -/
theorem c10_numeric_head_witness :
    jsOr (formattedAmountToNumber "abc") (JsNumber.finite 0) = JsNumber.finite 0 :=
  c10_numeric_head.2.2.2.2 "abc" (by rfl)
